import Mathlib

/-!
Verification of the browser-history query pipeline in
`chrome-history/chrome_history_query.py`.

The embedding models Python strings as `List Char` (ASCII is all the
source manipulates), Python substring tests (`x in s`) as `strIn`,
the relevant pieces of `urllib.parse.urlparse` as `netloc`, the one
regular expression of the source as an explicit backtracking matcher,
and CPython double-precision arithmetic (used in the timestamp
conversion) as correctly-rounded rational arithmetic at 53 bits of
precision.  Iteration over Python dicts follows insertion order
(CPython 3.7+); iteration over Python sets is only ever used under
`any`-style folds whose results are order independent.
-/

set_option autoImplicit false

namespace ChromeHistory

/-! ### Python string primitives -/

/-- Whitespace recognised by the Python `str.strip` / `str.split` /
regex `\s` machinery (ASCII fragment). -/
def pyIsSpace (c : Char) : Bool :=
  c == ' ' || c == '\t' || c == '\n' || c == '\r' || c == '\x0b' || c == '\x0c'

/-- Lower-case ASCII letter, the character class `[a-z]`. -/
def isLowerAZ (c : Char) : Bool := 'a' ≤ c && c ≤ 'z'

/-- ASCII case folding of a single character, as `str.lower` does on ASCII. -/
def lowerChar (c : Char) : Char :=
  if 'A' ≤ c && c ≤ 'Z' then Char.ofNat (c.toNat + 32) else c

/-- Model of `str.lower` (ASCII fragment). -/
def pyLower (l : List Char) : List Char := l.map lowerChar

/-- Model of `str.strip()`: remove leading and trailing whitespace. -/
def pyStrip (l : List Char) : List Char :=
  ((l.dropWhile pyIsSpace).reverse.dropWhile pyIsSpace).reverse

/-- Model of the Python substring test `needle in hay`. -/
def strIn (needle : List Char) : List Char → Bool
  | [] => needle.isEmpty
  | c :: t => needle.isPrefixOf (c :: t) || strIn needle t

/-- Accumulator pass for `pySplit`: `acc` holds the current token reversed. -/
def pySplitAux : List Char → List Char → List (List Char)
  | [], acc => if acc.isEmpty then [] else [acc.reverse]
  | c :: t, acc =>
    if pyIsSpace c then
      if acc.isEmpty then pySplitAux t [] else acc.reverse :: pySplitAux t []
    else pySplitAux t (c :: acc)

/-- Model of `str.split()` with no argument: split on whitespace runs,
dropping empty tokens. -/
def pySplit (l : List Char) : List (List Char) := pySplitAux l []

/-- Scanner for `stripAll`: while `skip > 0` the scanner is inside an
occurrence already matched and drops characters without re-testing. -/
def stripAllAux (needle : List Char) : Nat → List Char → List Char
  | _, [] => []
  | 0, c :: t =>
    if needle ≠ [] ∧ needle.isPrefixOf (c :: t) = true then
      stripAllAux needle (needle.length - 1) t
    else c :: stripAllAux needle 0 t
  | skip + 1, _ :: t => stripAllAux needle skip t

/-- Model of `str.replace(needle, ...)` with the empty replacement string:
delete every (left-to-right, non-overlapping) occurrence of `needle`. -/
def stripAll (needle : List Char) (l : List Char) : List Char :=
  stripAllAux needle 0 l

/-- Model of `str.capitalize()`: first character upper-cased, the rest
lower-cased. -/
def pyCapitalize (l : List Char) : List Char :=
  match l with
  | [] => []
  | c :: t => (if 'a' ≤ c && c ≤ 'z' then Char.ofNat (c.toNat - 32) else c) :: pyLower t

/-! ### Model of `urllib.parse.urlparse(url).netloc` -/

def isAlphaChar (c : Char) : Bool := ('a' ≤ c && c ≤ 'z') || ('A' ≤ c && c ≤ 'Z')

def isDigitChar (c : Char) : Bool := '0' ≤ c && c ≤ '9'

/-- A valid URL scheme: a letter followed by letters, digits, `+`, `-`, `.`. -/
def validScheme (s : List Char) : Bool :=
  match s with
  | [] => false
  | c :: t => isAlphaChar c &&
      t.all (fun x => isAlphaChar x || isDigitChar x || x == '+' || x == '-' || x == '.')

/-- Model of `urllib.parse.urlparse(url).netloc` for absolute URLs: strip a
valid `scheme:` prefix, and if the remainder begins with `//` the netloc is
everything up to the next `/`, `?` or `#`; otherwise it is empty. -/
def netloc (url : List Char) : List Char :=
  let pre := url.takeWhile (fun c => c != ':')
  let rest := if pre.length < url.length && validScheme pre
    then url.drop (pre.length + 1) else url
  if "//".data.isPrefixOf rest then
    (rest.drop 2).takeWhile (fun c => c != '/' && c != '?' && c != '#')
  else []

/-! ### Static tables (lines 20-48 of the source) -/

/-- `BLOCKLIST` (source lines 20-27).  The source stores these in a Python
set; the only use folds an order-independent disjunction over it, so a list
in the literal order is a faithful model. -/
def BLOCKLIST : List (List Char) :=
  ["facebook.com".data, "instagram.com".data, "twitter.com".data, "x.com".data,
   "tiktok.com".data, "reddit.com".data, "youtube.com".data, "amazon.com".data,
   "ebay.com".data, "pinterest.com".data, "linkedin.com".data, "threads.net".data,
   "mastodon.social".data, "gmail.com".data, "outlook.com".data,
   "mail.google.com".data, "freefeed.net".data, "google.com/url".data]

/-- `DOMAIN_CLUSTERS` (source lines 30-39), in dict insertion order.  The
per-cluster site sets are folded with an order-independent disjunction. -/
def DOMAIN_CLUSTERS : List (List Char × List (List Char)) :=
  [("research".data,
    ["github.com".data, "stackoverflow.com".data, "arxiv.org".data,
     "pubmed.ncbi.nlm.nih.gov".data, "wikipedia.org".data, "mdn.io".data,
     "python.org".data, "rust-lang.org".data, "docs.rs".data, "huggingface.co".data]),
   ("reading".data,
    ["medium.com".data, "substack.com".data, "economist.com".data, "nytimes.com".data,
     "sciencedaily.com".data, "fastcompany.com".data, "livescience.com".data,
     "thenewstack.io".data, "towardsdatascience.com".data, "cbsnews.com".data,
     "designboom.com".data, "meduza.io".data, "euractiv.com".data,
     "psychologytoday.com".data, "hackaday.com".data, "lesswrong.com".data,
     "yahoonews.com".data]),
   ("tools".data,
    ["openai.com".data, "claude-code.glebkalinin.com".data, "tbank.ru".data,
     "tinkoff.ru".data, "passwords.google.com".data]),
   ("events".data,
    ["eventbrite.de".data, "co-berlin.org".data, "mubi.com".data])]

/-- `SPECIAL_SITES` (source lines 42-48), in dict insertion order, which is
the iteration order of `SPECIAL_SITES.items()` in the source. -/
def SPECIAL_SITES : List (List Char × List Char) :=
  [("reddit".data, "reddit.com".data),
   ("hackernews".data, "news.ycombinator.com".data),
   ("twitter".data, "twitter.com".data),
   ("medium".data, "medium.com".data),
   ("youtube".data, "youtube.com".data)]

/-! ### Model of the keyword regex (source line 107)

The source extracts keywords with
`re.search(r'about\s+([a-z\s]+?)(?:\s+i\s+read|$|\.)', query)`.
The functions below implement exactly this pattern: leftmost search for
the literal `about`, a greedy (backtracking) run of whitespace, a lazy
capture group over the class `[a-z\s]`, and a terminator that is either
`\s+i\s+read`, end of input, or a literal dot. -/

/-- The character class `[a-z\s]` of the capture group. -/
def inClass (c : Char) : Bool := isLowerAZ c || pyIsSpace c

/-- Whether the terminator `(?:\s+i\s+read|$|\.)` matches at this position.
Inside the first alternative both `\s+` runs are followed by non-whitespace
literals, so greedy matching is deterministic. -/
def tailMatch (l : List Char) : Bool :=
  (let sp1 := l.takeWhile pyIsSpace
   if sp1.isEmpty then false
   else match l.drop sp1.length with
     | 'i' :: rest2 =>
       let sp2 := rest2.takeWhile pyIsSpace
       if sp2.isEmpty then false
       else "read".data.isPrefixOf (rest2.drop sp2.length)
     | _ => false)
  || l.isEmpty || (l.head? == some '.')

/-- The lazy group `([a-z\s]+?)`: having already captured `acc` (reversed,
nonempty), try the terminator first, and only on failure consume one more
class character. -/
def lazyGroup (acc : List Char) : List Char → Option (List Char)
  | [] => if tailMatch [] then some acc.reverse else none
  | c :: cs =>
    if tailMatch (c :: cs) then some acc.reverse
    else if inClass c then lazyGroup (c :: acc) cs
    else none

/-- Entry into the lazy group: it must capture at least one character before
the terminator is first tried. -/
def groupStart (l : List Char) : Option (List Char) :=
  match l with
  | [] => none
  | c :: cs => if inClass c then lazyGroup [c] cs else none

/-- Backtracking over the greedy `\s+`: try consuming `s` whitespace
characters for `s = max, max-1, ..., 1`. -/
def trySpaces (l : List Char) : Nat → Option (List Char)
  | 0 => none
  | s + 1 =>
    match groupStart (l.drop (s + 1)) with
    | some g => some g
    | none => trySpaces l s

/-- Match `\s+([a-z\s]+?)(?:\s+i\s+read|$|\.)` at the start of `l`. -/
def afterAboutMatch (l : List Char) : Option (List Char) :=
  trySpaces l (l.takeWhile pyIsSpace).length

/-- Match the whole pattern anchored at the start of `l`. -/
def matchAbout (l : List Char) : Option (List Char) :=
  if "about".data.isPrefixOf l then afterAboutMatch (l.drop 5) else none

/-- Model of `re.search` for this pattern: scan start positions left to
right and return the capture group of the first successful match. -/
def reSearchAbout : List Char → Option (List Char)
  | [] => none
  | c :: cs =>
    match matchAbout (c :: cs) with
    | some g => some g
    | none => reSearchAbout cs

/-! ### `parse_query` (source lines 50-112) -/

structure ParseResult where
  start_date : Int
  end_date : Int
  keywords : List (List Char)
  clusters : List (List Char)
  domain : Option (List Char)
deriving DecidableEq

/-- The condition of the `SPECIAL_SITES` loop body (source line 103). -/
def site_matches (query : List Char) (p : List Char × List Char) : Bool :=
  strIn p.1 query || strIn ("on ".data ++ p.1) query || strIn ("at ".data ++ p.1) query

/-- `parse_query` (source lines 50-112).  Dates are modelled as day
ordinals: `today` is the ordinal of the invocation date and
`timedelta(days = n)` is exact integer subtraction on ordinals, which is
exactly the arithmetic `datetime.date` performs. -/
def parse_query (today : Int) (query_text : List Char) : ParseResult :=
  let query := pyStrip (pyLower query_text)
  let dates : Int × Int :=
    if strIn "yesterday".data query then (today - 1, today - 1)
    else if strIn "last week".data query || strIn "past week".data query ||
        strIn "this week".data query then (today - 7, today)
    else if strIn "last month".data query || strIn "past month".data query ||
        strIn "this month".data query then (today - 30, today)
    else if strIn "last 2 weeks".data query || strIn "past 2 weeks".data query then
      (today - 14, today)
    else if strIn "today".data query || strIn "this morning".data query ||
        strIn "tonight".data query then (today, today)
    else (today, today)
  let clusters : List (List Char) :=
    (if strIn "article".data query || strIn "reading".data query
      then ["reading".data] else []) ++
    (if strIn "research".data query || strIn "scientific".data query ||
        strIn "paper".data query then ["research".data] else []) ++
    (if strIn "code".data query || strIn "github".data query
      then ["research".data] else [])
  let domain : Option (List Char) :=
    SPECIAL_SITES.foldl
      (fun acc p => if site_matches query p then some p.2 else acc) none
  let keywords : List (List Char) :=
    match reSearchAbout query with
    | some g => (pySplit (pyStrip g)).filter (fun w => 2 < w.length)
    | none => []
  ⟨dates.1, dates.2, keywords, clusters, domain⟩

/-! ### Dates and the Chrome timestamp conversion (source lines 121-128)

The source converts calendar dates to Chrome timestamps (microseconds
since 1601-01-01) with
`int((day - epoch).total_seconds() * 1_000_000)`.
`timedelta` subtraction of `datetime` values is exact, but
`total_seconds()` returns an IEEE-754 double
(`((days*86400 + seconds)*10**6 + microseconds) / 10**6` as float
division), and the multiplication by `1_000_000` is float
multiplication.  Both operations are correctly rounded to 53 bits of
precision (round to nearest, ties to even); `int()` truncates toward
zero.  `rnd53` below models that rounding on exact rationals for
positive values in the normal range, which covers every value this
conversion can produce. -/

/-- An exact fraction `num / den` with positive denominator.  Rationals
are represented unnormalised so that every arithmetic step below reduces
by plain integer operations. -/
structure Frac where
  num : Int
  den : Nat

/-- Floor of the base-2 logarithm, by fuelled halving (`fuel` bounds the
bit length). -/
def ilog2 : Nat → Nat → Nat
  | 0, _ => 0
  | fuel + 1, n => if n < 2 then 0 else ilog2 fuel (n / 2) + 1

/-- Exact comparison `a < b` of fractions with positive denominators. -/
def fracLT (a b : Frac) : Bool := a.num * (b.den : Int) < b.num * (a.den : Int)

/-- Exact comparison `a ≤ b` of fractions with positive denominators. -/
def fracLE (a b : Frac) : Bool := a.num * (b.den : Int) ≤ b.num * (a.den : Int)

/-- The fraction `2^k` for an integer exponent. -/
def pow2Frac (k : Int) : Frac :=
  if 0 ≤ k then ⟨((2 : Int) ^ k.toNat), 1⟩ else ⟨1, 2 ^ (-k).toNat⟩

/-- The fraction `q * 2^u`. -/
def fracMulPow2 (q : Frac) (u : Int) : Frac :=
  if 0 ≤ u then ⟨q.num * ((2 : Int) ^ u.toNat), q.den⟩
  else ⟨q.num, q.den * 2 ^ (-u).toNat⟩

/-- The fraction `m * 2^u` for an integer `m`. -/
def intMulPow2 (m : Int) (u : Int) : Frac :=
  if 0 ≤ u then ⟨m * ((2 : Int) ^ u.toNat), 1⟩ else ⟨m, 2 ^ (-u).toNat⟩

/-- Round a fraction (with positive denominator) to the nearest integer,
ties to even. -/
def rne (q : Frac) : Int :=
  let f : Int := q.num.fdiv (q.den : Int)
  let r2 : Int := 2 * (q.num - f * (q.den : Int))
  if r2 < (q.den : Int) then f
  else if (q.den : Int) < r2 then f + 1
  else if f % 2 = 0 then f else f + 1

/-- Correctly-rounded conversion of a positive normal-range fraction to
the nearest IEEE-754 double (53-bit significand, round to nearest, ties
to even), returned as the exact fraction of value of that double. -/
def rnd53 (q : Frac) : Frac :=
  let k0 : Int := (ilog2 128 q.num.toNat : Int) - (ilog2 128 q.den : Int)
  let k : Int := if fracLT q (pow2Frac k0) then k0 - 1
    else if fracLE (pow2Frac (k0 + 1)) q then k0 + 1 else k0
  let u : Int := k - 52
  intMulPow2 (rne (fracMulPow2 q (-u))) u

/-- Python `int()` on a float value: truncation toward zero. -/
def fracTrunc (q : Frac) : Int :=
  if 0 ≤ q.num then q.num.fdiv (q.den : Int) else -((-q.num).fdiv (q.den : Int))

/-- The Chrome timestamp the source computes from an exact microsecond
count `n`: `int(float(n / 10**6) * 1_000_000)` with both float
operations correctly rounded (`timedelta.total_seconds` divides the
exact microsecond count by `10**6` in float arithmetic). -/
def chrome_micros_code (n : Nat) : Int :=
  let seconds := rnd53 ⟨(n : Int), 1000000⟩
  let product := rnd53 ⟨seconds.num * 1000000, seconds.den⟩
  fracTrunc product

/-- A Gregorian calendar date. -/
structure Date where
  year : Nat
  month : Nat
  day : Nat
deriving DecidableEq

def isLeapYear (y : Nat) : Bool := y % 4 == 0 && (y % 100 != 0 || y % 400 == 0)

def daysInMonths (leap : Bool) : List Nat :=
  [31, if leap then 29 else 28, 31, 30, 31, 30, 31, 31, 30, 31, 30, 31]

def daysBeforeMonth (y m : Nat) : Nat := ((daysInMonths (isLeapYear y)).take (m - 1)).sum

/-- Days in years `1 .. y-1` of the proleptic Gregorian calendar, as in
the ordinal arithmetic of `datetime.date`. -/
def daysBeforeYear (y : Nat) : Nat :=
  365 * (y - 1) + (y - 1) / 4 + (y - 1) / 400 - (y - 1) / 100

/-- The proleptic Gregorian ordinal of a date (1 for 0001-01-01), as in
`datetime.date.toordinal`. -/
def toOrdinal (d : Date) : Nat := daysBeforeYear d.year + daysBeforeMonth d.year d.month + d.day

/-- Whole days from the Chrome epoch 1601-01-01 to the given date. -/
def daysSinceEpoch (d : Date) : Nat := toOrdinal d - toOrdinal ⟨1601, 1, 1⟩

/-- Exact microseconds from the epoch to `d` at `00:00:00`
(`datetime.time.min`), the intended lower bound of the range query. -/
def micros_start_exact (d : Date) : Nat := 86400000000 * daysSinceEpoch d

/-- Exact microseconds from the epoch to `d` at `23:59:59.999999`
(`datetime.time.max`), the intended upper bound of the range query. -/
def micros_end_exact (d : Date) : Nat := 86400000000 * (daysSinceEpoch d + 1) - 1

/-- `microseconds_start` as the source computes it (line 127). -/
def micros_start_code (d : Date) : Int := chrome_micros_code (micros_start_exact d)

/-- `microseconds_end` as the source computes it (line 128). -/
def micros_end_code (d : Date) : Int := chrome_micros_code (micros_end_exact d)

/-! ### Filter-and-classify pipeline (source lines 158-225) -/

/-- One row of the range query: `(urls.url, urls.title, visits.visit_time)`.
A title may be SQL NULL (`none`); `visit_time` is in Chrome microseconds. -/
structure RawEvent where
  url : List Char
  title : Option (List Char)
  visit_time : Nat
deriving DecidableEq

/-- The filters dictionary built from a parse result. -/
structure Filters where
  keywords : List (List Char)
  clusters : List (List Char)
  domain : Option (List Char)
deriving DecidableEq

/-- `should_include` (source lines 203-214).  The source binds
`domain = urlparse(url).netloc.replace('www.', '')` and then tests every
blocklist entry against both that domain and the full url, before
rejecting internal pseudo-scheme urls. -/
def should_include (url : List Char) : Bool :=
  if BLOCKLIST.any (fun b =>
      strIn b (stripAll "www.".data (netloc url)) || strIn b url) then false
  else if "chrome://".data.isPrefixOf url || "about:".data.isPrefixOf url ||
      "data:".data.isPrefixOf url then false
  else true

/-- `get_domain_cluster` (source lines 217-225): the first cluster (in
dict insertion order) one of whose site substrings occurs in the
www-stripped netloc; `other` if none does. -/
def get_domain_cluster (url : List Char) : List Char :=
  match DOMAIN_CLUSTERS.find? (fun p =>
      p.2.any (fun site => strIn site (stripAll "www.".data (netloc url)))) with
  | some p => p.1
  | none => "other".data

/-- Python truthiness fallback `title or ''` (line 187). -/
def titleOrEmpty (t : Option (List Char)) : List Char :=
  match t with
  | none => []
  | some s => s

/-- Python truthiness fallback `title or url` (line 194): `None` and the
empty string both fall back to the url. -/
def titleOr (t : Option (List Char)) (u : List Char) : List Char :=
  match t with
  | none => u
  | some s => if s.isEmpty then u else s

/-- The record appended for a surviving event (source lines 191-197).
The `time` field keeps the raw Chrome timestamp: the conversion to local
wall-clock time (lines 163-164) depends on the ambient timezone and is
abstracted out of the model; the formatter takes the rendering of a
timestamp as a parameter. -/
structure Visit where
  time : Nat
  url : List Char
  title : List Char
  domain : List Char
  cluster : List Char
deriving DecidableEq

def mkVisit (e : RawEvent) : Visit :=
  ⟨e.visit_time, e.url, titleOr e.title e.url, netloc e.url, get_domain_cluster e.url⟩

/-- The lowercased `f"{url} {title or ''}"` text the keyword filter
scans (line 187). -/
def combined_text (e : RawEvent) : List Char :=
  pyLower (e.url ++ ' ' :: titleOrEmpty e.title)

/-- The domain-filter rejection test (source lines 171-173). -/
def domain_excluded (f : Filters) (url : List Char) : Bool :=
  match f.domain with
  | some d => !strIn d url
  | none => false

/-- The cluster-filter rejection test (source lines 180-183). -/
def cluster_excluded (f : Filters) (e : RawEvent) : Bool :=
  !f.clusters.isEmpty && !(f.clusters.contains (get_domain_cluster e.url))

/-- The keyword-filter rejection test (source lines 186-189). -/
def keyword_excluded (f : Filters) (e : RawEvent) : Bool :=
  !f.keywords.isEmpty && !(f.keywords.any (fun kw => strIn kw (combined_text e)))

/-- The per-event loop of `get_chrome_history` (source lines 162-198):
blocklist, domain filter, dedup against the accepted-url set
(`url in seen_urls`), cluster filter, keyword filter, in that order;
accepted events are recorded in `seen`. -/
def process_visits (f : Filters) : List RawEvent → List (List Char) → List Visit
  | [], _ => []
  | e :: rest, seen =>
    if !should_include e.url then process_visits f rest seen
    else if domain_excluded f e.url then process_visits f rest seen
    else if e.url ∈ seen then process_visits f rest seen
    else if cluster_excluded f e then process_visits f rest seen
    else if keyword_excluded f e then process_visits f rest seen
    else mkVisit e :: process_visits f rest (e.url :: seen)

/-! ### History source (source lines 115-156)

The interactions with the file system and sqlite are modelled by an
environment record: whether the Chrome history file exists, whether the
snapshot copy succeeds (`shutil.copy2` is wrapped in `try/except`,
lines 137-140), and the outcome of the range query.  The sqlite
`connect`/`execute`/`fetchall` sequence (lines 143-156) is **not**
wrapped in any exception handler in the source, so a query failure is
modelled as an `Except.error` that the function returns as an error. -/

structure SourceEnv where
  history_exists : Bool
  copy_succeeds : Bool
  run_query : Int → Int → Except (List Char) (List RawEvent)

/-- `get_chrome_history` (source lines 115-200): compute the timestamp
bounds, bail out with `[]` if the history file is missing or the copy
fails, run the range query, and filter the results. -/
def get_chrome_history (env : SourceEnv) (start_d end_d : Date) (f : Filters) :
    Except (List Char) (List Visit) :=
  let mstart := micros_start_code start_d
  let mend := micros_end_code end_d
  if !env.history_exists then .ok []
  else if !env.copy_succeeds then .ok []
  else
    match env.run_query mstart mend with
    | .error e => .error e
    | .ok results => .ok (process_visits f results [])

/-! ### Formatter (source lines 228-266) -/

/-- The fixed display order `cluster_order` (source line 243). -/
def cluster_order : List (List Char) :=
  ["reading".data, "research".data, "tools".data, "events".data, "other".data]

/-- One step of building the `clusters` dict (source lines 236-241):
append the visit to the entry for `k`, creating the entry at the end if
absent (Python dicts preserve insertion order). -/
def dict_append (d : List (List Char × List Visit)) (k : List Char) (v : Visit) :
    List (List Char × List Visit) :=
  if d.any (fun p => p.1 == k) then
    d.map (fun p => if p.1 == k then (p.1, p.2 ++ [v]) else p)
  else d ++ [(k, [v])]

/-- The `clusters` dict after grouping all visits (source lines 236-241). -/
def build_clusters (visits : List Visit) : List (List Char × List Visit) :=
  visits.foldl (fun d v => dict_append d v.cluster v) []

/-- The groups the display loop walks (source lines 246-250): the fixed
order, skipping categories absent from the grouping. -/
def displayed_groups (visits : List Visit) : List (List Char × List Visit) :=
  cluster_order.filterMap (fun c =>
    ((build_clusters visits).find? (fun p => p.1 == c)).map (fun p => (c, p.2)))

/-- Title truncation (source lines 256-258), applied to the stripped title. -/
def truncTitle (t : List Char) : List Char :=
  if 75 < t.length then t.take 72 ++ "...".data else t

/-- The two lines printed per visit (source lines 254-261).  `tfmt`
renders the timestamp (`strftime('%H:%M')` of the local time, which is
environment dependent). -/
def entry_lines (tfmt : Nat → List Char) (v : Visit) : List (List Char) :=
  ["- ".data ++ tfmt v.time ++ " ".data ++ truncTitle (pyStrip v.title),
   "  ".data ++ v.url]

/-- A group heading `### Name (n)` (source line 252). -/
def cluster_heading (c : List Char) (n : Nat) : List Char :=
  "### ".data ++ pyCapitalize c ++ " (".data ++ Nat.toDigits 10 n ++ ")".data

/-- `format_results` (source lines 228-266), producing the list of lines
that the source joins with newlines. -/
def format_results (tfmt : Nat → List Char) (visits : List Visit)
    (query_text : List Char) : List (List Char) :=
  if visits.isEmpty then
    ["No browsing history found for: ".data ++ query_text]
  else
    let header : List (List Char) := ["## Chrome History: ".data ++ query_text, []]
    let body := (displayed_groups visits).flatMap (fun p =>
      cluster_heading p.1 p.2.length :: (p.2.flatMap (entry_lines tfmt) ++ [[]]))
    let total := ((displayed_groups visits).map (fun p => p.2.length)).sum
    (header ++ body).insertIdx 1
      ("*Found ".data ++ Nat.toDigits 10 total ++ " items*\n".data)

/-! ### Specification-side definitions

These definitions follow the words of the specification (not the
source); the theorems below compare them with the embedded source
functions. -/

/-- The five date-range shapes of the specification. -/
inductive RangeKind where
  | yesterdayR
  | weekR
  | monthR
  | twoWeeksR
  | todayR
deriving DecidableEq

/-- The concrete inclusive range each trigger kind denotes, measured
against the invocation date. -/
def range_of (k : RangeKind) (today : Int) : Int × Int :=
  match k with
  | .yesterdayR => (today - 1, today - 1)
  | .weekR => (today - 7, today)
  | .monthR => (today - 30, today)
  | .twoWeeksR => (today - 14, today)
  | .todayR => (today, today)

/-- The ordered trigger table of the specification: date phrases in
priority order. -/
def trigger_table : List (List (List Char) × RangeKind) :=
  [(["yesterday".data], .yesterdayR),
   (["last week".data, "past week".data, "this week".data], .weekR),
   (["last month".data, "past month".data, "this month".data], .monthR),
   (["last 2 weeks".data, "past 2 weeks".data], .twoWeeksR),
   (["today".data, "this morning".data, "tonight".data], .todayR)]

/-- Spec-side date-range resolution: the first trigger group in priority
order with a phrase occurring in the text wins; default `[today, today]`. -/
def spec_date_range (today : Int) (txt : List Char) : Int × Int :=
  match trigger_table.find? (fun r => r.1.any (fun p => strIn p txt)) with
  | some r => range_of r.2 today
  | none => (today, today)

/-- The text after the first occurrence of `needle`, if any. -/
def afterFirst (needle : List Char) : List Char → Option (List Char)
  | [] => if needle.isEmpty then some [] else none
  | c :: t =>
    if needle.isPrefixOf (c :: t) then some ((c :: t).drop needle.length)
    else afterFirst needle t

/-- The text before the first occurrence of `needle` (all of it if
`needle` does not occur). -/
def upTo (needle : List Char) : List Char → List Char
  | [] => []
  | c :: t => if needle.isPrefixOf (c :: t) then [] else c :: upTo needle t

/-- Keyword extraction as the claim words it: the whitespace-separated
tokens of the free text following the word `about` up to `i read` or the
end of the string, tokens shorter than 3 characters discarded. -/
def claimed_keywords (query_text : List Char) : List (List Char) :=
  let q := pyStrip (pyLower query_text)
  match afterFirst "about".data q with
  | some rest => (pySplit (upTo "i read".data rest)).filter (fun w => 2 < w.length)
  | none => []

/-- Whether an event passes the stateless filters of the per-event loop
(blocklist, domain, cluster, keyword) — everything except deduplication. -/
def passes_filters (f : Filters) (e : RawEvent) : Bool :=
  should_include e.url && !domain_excluded f e.url &&
    !cluster_excluded f e && !keyword_excluded f e

/-- First-occurrence-per-url deduplication: keep an event when its url is
not in `seen`, recording kept urls. -/
def dedup_first (seen : List (List Char)) : List RawEvent → List RawEvent
  | [] => []
  | e :: rest =>
    if e.url ∈ seen then dedup_first seen rest
    else e :: dedup_first (e.url :: seen) rest

/-! ### Concrete data for witnesses and counterexamples -/

/-- A fixed rendering of timestamps for concrete formatter inputs. -/
def tfmt0 : Nat → List Char := fun _ => "00:00".data

/-- First (most recent) occurrence of a url; its title misses the keyword. -/
def ev_first : RawEvent := ⟨"https://example.org/a".data, some "alpha".data, 200⟩

/-- Second occurrence of the same url; its title contains the keyword. -/
def ev_second : RawEvent := ⟨"https://example.org/a".data, some "foobar".data, 100⟩

/-- A keyword-only filter matching `foobar` but not `alpha`. -/
def filter_kw : Filters := ⟨["foo".data], [], none⟩

/-- A visit classified as reading. -/
def visit_read : Visit :=
  ⟨0, "https://medium.com/x".data, "t".data, "medium.com".data, "reading".data⟩

/-- A visit whose title is 80 characters long with all the excess
whitespace: longer than 75 characters, but its stripped form is not. -/
def visit_padded : Visit :=
  ⟨0, "https://example.org/a".data,
   List.replicate 74 'a' ++ List.replicate 6 ' ', "example.org".data, "other".data⟩

/-- A visit whose stripped title is 80 non-blank characters. -/
def visit_long : Visit :=
  ⟨0, "https://example.org/b".data, List.replicate 80 'b', "example.org".data, "other".data⟩

/-! ## Theorems -/

/-- C1 (amended): a missing history file and a failed snapshot copy both
degrade to the empty result, but an error raised by the range query
itself is returned as an error to the caller — the source wraps only the
copy in an exception handler, not the sqlite query. -/
theorem history_source_error_policy (start_d end_d : Date) (f : Filters) (b : Bool)
    (g g2 : Int → Int → Except (List Char) (List RawEvent)) (err : List Char) :
    get_chrome_history ⟨false, b, g⟩ start_d end_d f = .ok [] ∧
    get_chrome_history ⟨true, false, g2⟩ start_d end_d f = .ok [] ∧
    get_chrome_history ⟨true, true, fun _ _ => .error err⟩ start_d end_d f = .error err :=
  ⟨rfl, rfl, rfl⟩

/-- C1 counterexample: with the history file present and the copy
succeeding, a failing range query makes the fetch return that error, not
the empty result the claim requires. -/
theorem history_query_error_counterexample :
    get_chrome_history ⟨true, true, fun _ _ => .error "database is locked".data⟩
        ⟨2024, 1, 1⟩ ⟨2024, 1, 1⟩ ⟨[], [], none⟩ = .error "database is locked".data ∧
      (Except.error "database is locked".data : Except (List Char) (List Visit)) ≠ .ok [] :=
  ⟨rfl, fun h => Except.noConfusion h⟩

/-- C2: at the failing input (a range ending 2024-12-31) the upper bound
the source computes through float arithmetic is one microsecond short of
the exact microsecond count of 23:59:59.999999, so an event timestamped
exactly on the upper boundary is silently dropped; the lower bound of
the same date happens to be exact. -/
theorem chrome_time_upper_bound_inexact :
    micros_end_code ⟨2024, 12, 31⟩ = 13380163199999998 ∧
    (micros_end_exact ⟨2024, 12, 31⟩ : Int) = 13380163199999999 ∧
    micros_start_code ⟨2024, 12, 31⟩ = (micros_start_exact ⟨2024, 12, 31⟩ : Int) :=
  ⟨by decide, by decide, by decide⟩

/-- Accepting an event requires passing the stateless filters and not
having the url in the accepted set; the accepted set grows exactly at
acceptances.  This characterises the loop as first-occurrence-per-url
deduplication of the filter-passing subsequence. -/
theorem process_visits_eq_dedup (f : Filters) (raw : List RawEvent) :
    ∀ seen, process_visits f raw seen =
      (dedup_first seen (raw.filter (passes_filters f))).map mkVisit := by
  induction raw with
  | nil => intro seen; rfl
  | cons e rest ih =>
    intro seen
    cases h1 : should_include e.url with
    | false =>
      simp [process_visits, h1, List.filter_cons, passes_filters, ih]
    | true =>
      cases h2 : domain_excluded f e.url with
      | true =>
        simp [process_visits, h1, h2, List.filter_cons, passes_filters, ih]
      | false =>
        cases h4 : cluster_excluded f e with
        | true =>
          by_cases h3 : e.url ∈ seen
          · simp [process_visits, h1, h2, h3, h4, List.filter_cons, passes_filters, ih]
          · simp [process_visits, h1, h2, h3, h4, List.filter_cons, passes_filters, ih]
        | false =>
          cases h5 : keyword_excluded f e with
          | true =>
            by_cases h3 : e.url ∈ seen
            · simp [process_visits, h1, h2, h3, h4, h5, List.filter_cons,
                passes_filters, ih]
            · simp [process_visits, h1, h2, h3, h4, h5, List.filter_cons,
                passes_filters, ih]
          | false =>
            by_cases h3 : e.url ∈ seen
            · simp [process_visits, h1, h2, h3, h4, h5, List.filter_cons,
                passes_filters, dedup_first, ih]
            · simp [process_visits, h1, h2, h3, h4, h5, List.filter_cons,
                passes_filters, dedup_first, ih]

/-- C3 (amended): the filter-and-classify loop keeps, for each url, only
the first (time-descending) occurrence among the events that pass the
blocklist, domain, cluster and keyword filters — equivalently, it is the
record image of first-occurrence-per-url deduplication applied to the
filter-passing events.  (If the first occurrence of a url fails a
filter, a later occurrence can still be kept.) -/
theorem process_keeps_first_passing (f : Filters) (raw : List RawEvent) :
    process_visits f raw [] = (dedup_first [] (raw.filter (passes_filters f))).map mkVisit :=
  process_visits_eq_dedup f raw []

/-- C3 counterexample: two raw events share a url; the first one fails
the keyword filter, so the loop keeps the second occurrence — its record
differs from the record of the first occurrence, refuting the claim that
only the first occurrence is ever kept. -/
theorem process_first_occurrence_counterexample :
    process_visits filter_kw [ev_first, ev_second] [] = [mkVisit ev_second] ∧
      mkVisit ev_second ≠ mkVisit ev_first := by
  constructor
  · decide
  · decide

/-- Every event kept by `dedup_first` has a url outside `seen`. -/
theorem dedup_first_mem_not_seen :
    ∀ (l : List RawEvent) (seen : List (List Char)) (e : RawEvent),
      e ∈ dedup_first seen l → e.url ∉ seen := by
  intro l
  induction l with
  | nil => intro seen e h; simp [dedup_first] at h
  | cons a t ih =>
    intro seen e h
    by_cases ha : a.url ∈ seen
    · rw [dedup_first, if_pos ha] at h
      exact ih seen e h
    · rw [dedup_first, if_neg ha] at h
      rcases List.mem_cons.mp h with rfl | hm
      · exact ha
      · have h2 := ih _ e hm
        simp only [List.mem_cons, not_or] at h2
        exact h2.2

/-- The events kept by `dedup_first` have pairwise distinct urls. -/
theorem dedup_first_pairwise :
    ∀ (l : List RawEvent) (seen : List (List Char)),
      (dedup_first seen l).Pairwise (fun a b => a.url ≠ b.url) := by
  intro l
  induction l with
  | nil => intro seen; simp [dedup_first]
  | cons a t ih =>
    intro seen
    by_cases ha : a.url ∈ seen
    · rw [dedup_first, if_pos ha]; exact ih seen
    · rw [dedup_first, if_neg ha]
      refine List.pairwise_cons.mpr ⟨?_, ih _⟩
      intro b hb
      have h2 := dedup_first_mem_not_seen t _ b hb
      simp only [List.mem_cons, not_or] at h2
      exact fun hab => h2.1 hab.symm

/-- C4: the output of the filter-and-classify loop never contains two
records with the same url. -/
theorem process_output_urls_distinct (f : Filters) (raw : List RawEvent) :
    (process_visits f raw []).Pairwise (fun a b => a.url ≠ b.url) := by
  rw [process_visits_eq_dedup f raw []]
  exact List.Pairwise.map mkVisit (fun a b h => h) (dedup_first_pairwise _ [])

/-- A url containing `reddit.com` is rejected by the blocklist check. -/
theorem should_include_of_reddit {url : List Char}
    (h : strIn "reddit.com".data url = true) : should_include url = false := by
  have hany : BLOCKLIST.any (fun b =>
      strIn b (stripAll "www.".data (netloc url)) || strIn b url) = true :=
    List.any_eq_true.mpr ⟨"reddit.com".data, by decide, by simp [h]⟩
  simp [should_include, hany]

/-- C10: with the domain filter set to `reddit.com` (as produced by a
query naming the reddit site), the filter-and-classify loop returns the
empty list: the blocklist check runs before the domain filter, rejects
every url containing `reddit.com`, and the domain filter rejects all the
others. -/
theorem reddit_domain_filter_returns_empty (kws cls : List (List Char))
    (raw : List RawEvent) :
    process_visits ⟨kws, cls, some "reddit.com".data⟩ raw [] = [] := by
  suffices h : ∀ seen, process_visits ⟨kws, cls, some "reddit.com".data⟩ raw seen = []
    from h []
  induction raw with
  | nil => intro seen; rfl
  | cons e rest ih =>
    intro seen
    cases hr : strIn "reddit.com".data e.url with
    | true =>
      have hsi := should_include_of_reddit hr
      simp [process_visits, hsi, ih]
    | false =>
      cases hsi : should_include e.url with
      | false => simp [process_visits, hsi, ih]
      | true => simp [process_visits, hsi, domain_excluded, hr, ih]

/-- C9 (amended): a record whose stripped title is longer than 75
characters is rendered with that stripped title truncated to its first
72 characters plus an ellipsis marker. -/
theorem title_truncated_to_72 (tfmt : Nat → List Char) (v : Visit)
    (h : 75 < (pyStrip v.title).length) :
    entry_lines tfmt v =
      ["- ".data ++ tfmt v.time ++ " ".data ++ ((pyStrip v.title).take 72 ++ "...".data),
       "  ".data ++ v.url] := by
  simp [entry_lines, truncTitle, h]

/-- Witness for C9 at a concrete 80-character title. -/
theorem title_truncated_to_72_witness :
    75 < (pyStrip visit_long.title).length ∧
    entry_lines tfmt0 visit_long =
      ["- ".data ++ tfmt0 visit_long.time ++ " ".data ++
        ((pyStrip visit_long.title).take 72 ++ "...".data),
       "  ".data ++ visit_long.url] :=
  ⟨by decide, title_truncated_to_72 tfmt0 visit_long (by decide)⟩

/-- C9 counterexample: a title of 80 characters whose last 6 are blanks
is longer than 75 characters, yet it is rendered in full (as its
74-character stripped form) with no ellipsis — the source tests the
stripped length, not the title length. -/
theorem title_truncation_counterexample :
    75 < visit_padded.title.length ∧
    entry_lines tfmt0 visit_padded =
      ["- 00:00 ".data ++ List.replicate 74 'a', "  ".data ++ visit_padded.url] ∧
    ("- 00:00 ".data ++ List.replicate 74 'a') ≠
      ("- 00:00 ".data ++ (visit_padded.title.take 72 ++ "...".data)) := by
  refine ⟨by decide, by decide, by decide⟩

/-- `find?` on a cons cell, as an if-then-else. -/
theorem find?_cons_eq {α : Type} (p : α → Bool) (a : α) (l : List α) :
    (a :: l).find? p = if p a then some a else l.find? p := by
  cases h : p a <;> simp [List.find?, h]

/-- `getLast?` of a cons cell in terms of the tail. -/
theorem lastOpt_cons {α : Type} (a : α) (l : List α) :
    (a :: l).getLast? = some (l.getLast?.getD a) := by
  induction l generalizing a with
  | nil => rfl
  | cons b t ih => rw [List.getLast?_cons_cons, ih b]; simp

/-- A fold that overwrites its accumulator at every match computes the
last matching element (or keeps the initial value). -/
theorem foldl_last_match {α β : Type} (c : α → Bool) (g : α → β) :
    ∀ (l : List α) (init : Option β),
      l.foldl (fun acc p => if c p then some (g p) else acc) init =
        (match (l.filter c).getLast? with
          | some p => some (g p)
          | none => init) := by
  intro l
  induction l with
  | nil => intro init; rfl
  | cons a t ih =>
    intro init
    rw [List.foldl_cons, ih]
    cases hca : c a with
    | false => simp [List.filter_cons, hca]
    | true =>
      simp only [List.filter_cons, hca, if_true, lastOpt_cons]
      cases hl : (t.filter c).getLast? <;> simp [hl]

/-- C6: when several entries of the name→domain table match the query,
the resulting domain is the domain of the last matching entry in the
table's iteration order — each later match overwrites the previous one;
resolution does not stop at the first hit. -/
theorem special_sites_last_match (today : Int) (q : List Char)
    (_h2 : 2 ≤ (SPECIAL_SITES.filter (site_matches (pyStrip (pyLower q)))).length) :
    (parse_query today q).domain =
      ((SPECIAL_SITES.filter (site_matches (pyStrip (pyLower q)))).getLast?).map Prod.snd := by
  have key := foldl_last_match (site_matches (pyStrip (pyLower q))) Prod.snd SPECIAL_SITES none
  have hdom : (parse_query today q).domain =
      SPECIAL_SITES.foldl
        (fun acc p => if site_matches (pyStrip (pyLower q)) p then some p.2 else acc)
        none := rfl
  rw [hdom, key]
  cases hl : (SPECIAL_SITES.filter (site_matches (pyStrip (pyLower q)))).getLast? <;>
    simp [hl]

/-- Witness for C6: a query naming both reddit and twitter resolves to
the domain of the later table entry, `twitter.com`. -/
theorem special_sites_last_match_witness :
    2 ≤ (SPECIAL_SITES.filter
        (site_matches (pyStrip (pyLower "threads on reddit and twitter".data)))).length ∧
    (parse_query 0 "threads on reddit and twitter".data).domain = some "twitter.com".data :=
  ⟨by decide,
    (special_sites_last_match 0 "threads on reddit and twitter".data (by decide)).trans
      (by decide)⟩

/-- The element returned by `find?` satisfies the predicate (wrapper with
fully determined implicit arguments). -/
theorem find?_prop {α : Type} {p : α → Bool} {l : List α} {a : α}
    (h : l.find? p = some a) : p a = true :=
  List.find?_some h

/-- The grouping fold keeps every visit filed under its own cluster key. -/
theorem build_clusters_key_consistent (visits : List Visit) :
    ∀ p ∈ build_clusters visits, ∀ v ∈ p.2, v.cluster = p.1 := by
  suffices h : ∀ (d : List (List Char × List Visit)),
      (∀ p ∈ d, ∀ v ∈ p.2, v.cluster = p.1) →
      ∀ p ∈ visits.foldl (fun d v => dict_append d v.cluster v) d,
        ∀ v ∈ p.2, v.cluster = p.1 by
    exact h [] (by simp)
  induction visits with
  | nil => intro d hd; simpa using hd
  | cons v t ih =>
    intro d hd
    rw [List.foldl_cons]
    apply ih
    intro p hp w hw
    unfold dict_append at hp
    by_cases hx : d.any (fun p => p.1 == v.cluster) = true
    · rw [if_pos hx] at hp
      rcases List.mem_map.mp hp with ⟨p0, hp0, heq⟩
      by_cases hk : (p0.1 == v.cluster) = true
      · rw [if_pos hk] at heq
        subst heq
        rcases List.mem_append.mp hw with hw1 | hw2
        · exact hd p0 hp0 w hw1
        · have : w = v := by simpa using hw2
          subst this
          exact (eq_of_beq hk).symm
      · rw [if_neg hk] at heq
        subst heq
        exact hd p0 hp0 w hw
    · rw [if_neg hx] at hp
      rcases List.mem_append.mp hp with hp1 | hp2
      · exact hd p hp1 w hw
      · have : p = (v.cluster, [v]) := by simpa using hp2
        subst this
        have : w = v := by simpa using hw
        subst this
        rfl

/-- The keys of the displayed groups are the display-order categories
restricted to those present in the grouping. -/
theorem filterMap_find_keys (d : List (List Char × List Visit)) (order : List (List Char)) :
    (order.filterMap (fun c => (d.find? (fun p => p.1 == c)).map (fun p => (c, p.2)))).map
        Prod.fst =
      order.filter (fun c => d.any (fun p => p.1 == c)) := by
  induction order with
  | nil => rfl
  | cons c t ih =>
    cases hf : d.find? (fun p => p.1 == c) with
    | none =>
      have ha : d.any (fun p => p.1 == c) = false := by
        rw [List.any_eq_false]
        intro x hx
        exact (List.find?_eq_none.mp hf x hx)
      simp [List.filterMap_cons, List.filter_cons, hf, ha, ih]
    | some p =>
      have hpa := find?_prop hf
      have ha : d.any (fun q => q.1 == c) = true :=
        List.any_eq_true.mpr ⟨p, List.mem_of_find?_eq_some hf, hpa⟩
      simp [List.filterMap_cons, List.filter_cons, hf, ha, ih]

/-- Every displayed group carries a display-order key and contains only
visits of that cluster. -/
theorem displayed_groups_mem (visits : List Visit) {c : List Char} {vs : List Visit}
    (h : (c, vs) ∈ displayed_groups visits) :
    c ∈ cluster_order ∧ ∀ v ∈ vs, v.cluster = c := by
  rcases List.mem_filterMap.mp h with ⟨c0, hc0, hf⟩
  cases hfind : (build_clusters visits).find? (fun p => p.1 == c0) with
  | none => rw [hfind] at hf; simp at hf
  | some p =>
    rw [hfind] at hf
    simp only [Option.map_some'] at hf
    injection hf with h1
    injection h1 with hc0c hvs
    subst hc0c
    subst hvs
    have hpa := find?_prop hfind
    have hp1 : p.1 = c0 := eq_of_beq hpa
    have hmem := List.mem_of_find?_eq_some hfind
    refine ⟨hc0, fun v hv => ?_⟩
    rw [build_clusters_key_consistent visits p hmem v hv, hp1]

/-- C8: the displayed groups of the render step appear in exactly the
fixed priority order `[reading, research, tools, events, other]` with
absent categories skipped, and every record shown belongs to one of
those five categories. -/
theorem render_fixed_category_order (visits : List Visit) :
    (displayed_groups visits).map Prod.fst =
      cluster_order.filter (fun c => (build_clusters visits).any (fun p => p.1 == c)) ∧
    ∀ c vs, (c, vs) ∈ displayed_groups visits → ∀ v ∈ vs, v.cluster ∈ cluster_order := by
  refine ⟨filterMap_find_keys _ _, ?_⟩
  intro c vs h v hv
  obtain ⟨hc, hcl⟩ := displayed_groups_mem visits h
  rw [hcl v hv]
  exact hc

/-- Witness for C8 at a one-visit input. -/
theorem render_fixed_category_order_witness :
    ("reading".data, [visit_read]) ∈ displayed_groups [visit_read] ∧
      visit_read.cluster ∈ cluster_order :=
  ⟨by decide,
    (render_fixed_category_order [visit_read]).2 "reading".data [visit_read] (by decide)
      visit_read (by decide)⟩

/-- C5: the parser resolves the date range as the first matching trigger
group in the fixed priority order (yesterday; last/past/this week;
last/past/this month; last/past 2 weeks; today/this morning/tonight)
occurring in the lowercased (and stripped) text, ignoring later-priority
triggers, and defaults to `[today, today]` when no trigger matches —
which covers empty and whitespace-only input. -/
theorem parse_date_range_priority (today : Int) (q : List Char) :
    ((parse_query today q).start_date, (parse_query today q).end_date) =
      spec_date_range today (pyStrip (pyLower q)) := by
  unfold spec_date_range trigger_table
  simp only [find?_cons_eq, List.find?_nil, List.any_cons, List.any_nil,
    Bool.or_false, Bool.or_assoc, range_of]
  cases h1 : strIn "yesterday".data (pyStrip (pyLower q)) with
  | true => simp [parse_query, h1]
  | false =>
    cases h2 : (strIn "last week".data (pyStrip (pyLower q)) ||
        (strIn "past week".data (pyStrip (pyLower q)) ||
          strIn "this week".data (pyStrip (pyLower q)))) with
    | true => simp [parse_query, h1, h2, Bool.or_assoc]
    | false =>
      cases h3 : (strIn "last month".data (pyStrip (pyLower q)) ||
          (strIn "past month".data (pyStrip (pyLower q)) ||
            strIn "this month".data (pyStrip (pyLower q)))) with
      | true => simp [parse_query, h1, h2, h3, Bool.or_assoc]
      | false =>
        cases h4 : (strIn "last 2 weeks".data (pyStrip (pyLower q)) ||
            strIn "past 2 weeks".data (pyStrip (pyLower q))) with
        | true => simp [parse_query, h1, h2, h3, h4, Bool.or_assoc]
        | false =>
          cases h5 : (strIn "today".data (pyStrip (pyLower q)) ||
              (strIn "this morning".data (pyStrip (pyLower q)) ||
                strIn "tonight".data (pyStrip (pyLower q)))) with
          | true => simp [parse_query, h1, h2, h3, h4, h5, Bool.or_assoc]
          | false => simp [parse_query, h1, h2, h3, h4, h5, Bool.or_assoc]

/-- A lower-case letter is not regex whitespace. -/
theorem isLowerAZ_not_space {c : Char} (h : isLowerAZ c = true) : pyIsSpace c = false := by
  simp only [isLowerAZ, Bool.and_eq_true, decide_eq_true_eq] at h
  simp only [pyIsSpace, Bool.or_eq_false_iff, beq_eq_false_iff_ne, ne_eq]
  refine ⟨⟨⟨⟨⟨?_, ?_⟩, ?_⟩, ?_⟩, ?_⟩, ?_⟩ <;>
    · rintro rfl
      exact absurd h.1 (by decide)

/-- When `about` is not a prefix, the anchored match fails. -/
theorem matchAbout_none {l : List Char} (h : ¬ ("about".data <+: l)) :
    matchAbout l = none := by
  unfold matchAbout
  rw [if_neg (fun hb => h (List.isPrefixOf_iff_prefix.mp hb))]

/-- The search skips a prefix in which no occurrence of `about` starts. -/
theorem reSearchAbout_append (rest : List Char) :
    ∀ p : List Char, (∀ i, i < p.length → ¬ ("about".data <+: ((p ++ rest).drop i))) →
      reSearchAbout (p ++ rest) = reSearchAbout rest := by
  intro p
  induction p with
  | nil => intro _; rfl
  | cons c p' ih =>
    intro hp
    have h0 : ¬ ("about".data <+: (c :: (p' ++ rest))) := by
      have := hp 0 (by simp)
      simpa using this
    have hm : matchAbout (c :: (p' ++ rest)) = none := matchAbout_none h0
    show reSearchAbout (c :: (p' ++ rest)) = reSearchAbout rest
    simp only [reSearchAbout, hm]
    exact ih (fun i hi => by
      have := hp (i + 1) (by simpa using Nat.succ_lt_succ hi)
      simpa using this)

/-- The search succeeds at an occurrence of `about` whose tail matches. -/
theorem reSearchAbout_about_pos {l g : List Char} (h : afterAboutMatch l = some g) :
    reSearchAbout ("about".data ++ l) = some g := by
  have hpre : ("about".data.isPrefixOf ("about".data ++ l)) = true :=
    List.isPrefixOf_iff_prefix.mpr ⟨l, rfl⟩
  have hm : matchAbout ('a' :: 'b' :: 'o' :: 'u' :: 't' :: l) = some g := by
    show matchAbout ("about".data ++ l) = some g
    unfold matchAbout
    rw [if_pos hpre]
    show afterAboutMatch (("about".data ++ l).drop 5) = some g
    exact h
  show reSearchAbout ('a' :: 'b' :: 'o' :: 'u' :: 't' :: l) = some g
  simp only [reSearchAbout, hm]

/-- The lazy group consumes a run of class characters at whose interior
positions the terminator fails, stopping exactly where it succeeds. -/
theorem lazyGroup_run (r : List Char) (hr : tailMatch r = true) :
    ∀ u : List Char, ∀ acc : List Char,
      (∀ c ∈ u, inClass c = true) →
      (∀ k, k < u.length → tailMatch (u.drop k ++ r) = false) →
      lazyGroup acc (u ++ r) = some (acc.reverse ++ u) := by
  intro u
  induction u with
  | nil =>
    intro acc _ _
    cases r with
    | nil => simp [lazyGroup, hr]
    | cons c cs => simp [lazyGroup, hr]
  | cons c u' ih =>
    intro acc hcl hint
    have h0 : tailMatch (c :: (u' ++ r)) = false := by
      have := hint 0 (by simp)
      simpa using this
    have hc : inClass c = true := hcl c (by simp)
    show lazyGroup acc (c :: (u' ++ r)) = some (acc.reverse ++ (c :: u'))
    simp only [lazyGroup, h0, hc, if_false, if_true, Bool.false_eq_true]
    rw [ih (c :: acc) (fun x hx => hcl x (by simp [hx])) (fun k hk => by
      have := hint (k + 1) (by simpa using Nat.succ_lt_succ hk)
      simpa using this)]
    simp

/-- The spacing-and-group part succeeds on a single blank followed by a
class run that the lazy group consumes. -/
theorem afterAboutMatch_eq {c0 : Char} {t' r : List Char}
    (hc0 : isLowerAZ c0 = true)
    (hgroup : lazyGroup [c0] (t' ++ r) = some (c0 :: t')) :
    afterAboutMatch (' ' :: (c0 :: (t' ++ r))) = some (c0 :: t') := by
  have hsp : pyIsSpace c0 = false := isLowerAZ_not_space hc0
  have hspace : pyIsSpace ' ' = true := by decide
  have htw : (' ' :: (c0 :: (t' ++ r))).takeWhile pyIsSpace = [' '] := by
    simp [List.takeWhile_cons, hspace, hsp]
  have hic : inClass c0 = true := by simp [inClass, hc0]
  have hgs : groupStart (c0 :: (t' ++ r)) = some (c0 :: t') := by
    show (if inClass c0 = true then lazyGroup [c0] (t' ++ r) else none) = some (c0 :: t')
    rw [if_pos hic]
    exact hgroup
  unfold afterAboutMatch
  rw [htw]
  show trySpaces (' ' :: (c0 :: (t' ++ r))) (0 + 1) = some (c0 :: t')
  simp only [trySpaces]
  rw [show ((' ' :: (c0 :: (t' ++ r))).drop (0 + 1)) = (c0 :: (t' ++ r)) from rfl, hgs]

/-- C7 (amended): when the text after `about` decomposes as a nonempty
run of letters-and-blanks starting with a letter, at whose interior
positions the terminator does not match, followed by a position where
the terminator does match (an `i read` phrase, the end of the string, or
a period), the keyword list is exactly the whitespace-separated tokens
of that run with tokens shorter than 3 characters discarded.  (On text
that the character class `[a-z\s]` cannot cover — digits, punctuation —
the regex can fail entirely and yield no keywords.) -/
theorem keyword_extraction (today : Int) (qt p t r : List Char)
    (hq : pyStrip (pyLower qt) = p ++ "about ".data ++ t ++ r)
    (hp : ∀ i, i < p.length → ¬ ("about".data <+: ((p ++ "about ".data ++ t ++ r).drop i)))
    (ht0 : t ≠ [])
    (htc : ∀ c ∈ t, inClass c = true)
    (hth : isLowerAZ t.headI = true)
    (hr : tailMatch r = true)
    (hint : ∀ k, k < t.length → 0 < k → tailMatch (t.drop k ++ r) = false) :
    (parse_query today qt).keywords =
      (pySplit (pyStrip t)).filter (fun w => 2 < w.length) := by
  obtain ⟨c0, t', rfl⟩ := List.exists_cons_of_ne_nil ht0
  have hc0 : isLowerAZ c0 = true := by simpa using hth
  have hassoc : p ++ "about ".data ++ (c0 :: t') ++ r =
      p ++ ("about".data ++ (' ' :: (c0 :: (t' ++ r)))) := by
    simp only [List.append_assoc]
    rfl
  have hgroup : lazyGroup [c0] (t' ++ r) = some (c0 :: t') := by
    have h := lazyGroup_run r hr t' [c0]
      (fun x hx => htc x (by simp [hx]))
      (fun k hk => by
        have := hint (k + 1) (by simpa using Nat.succ_lt_succ hk) (Nat.succ_pos k)
        simpa using this)
    simpa using h
  have hafter : afterAboutMatch (' ' :: (c0 :: (t' ++ r))) = some (c0 :: t') :=
    afterAboutMatch_eq hc0 hgroup
  have hp' : ∀ i, i < p.length →
      ¬ ("about".data <+: ((p ++ ("about".data ++ (' ' :: (c0 :: (t' ++ r))))).drop i)) := by
    intro i hi
    have := hp i hi
    rw [hassoc] at this
    exact this
  have hsearch : reSearchAbout (pyStrip (pyLower qt)) = some (c0 :: t') := by
    rw [hq, hassoc, reSearchAbout_append _ p hp']
    exact reSearchAbout_about_pos hafter
  have hkw : (parse_query today qt).keywords =
      (match reSearchAbout (pyStrip (pyLower qt)) with
        | some g => (pySplit (pyStrip g)).filter (fun w => 2 < w.length)
        | none => []) := rfl
  rw [hkw, hsearch]

/-- Witness for C7 at the example of the claim. -/
theorem keyword_extraction_witness :
    (parse_query 0 "articles about rust I read yesterday".data).keywords = ["rust".data] :=
  (keyword_extraction 0 "articles about rust I read yesterday".data "articles ".data
      "rust".data " i read yesterday".data (by decide) (by decide) (by decide) (by decide)
      (by decide) (by decide) (by decide)).trans (by decide)

/-- C7 counterexample: for `articles about gpt4`, the claim prescribes
the keyword `gpt4`, but the capture class `[a-z\s]` cannot cross the
digit, no alternative of the terminator matches before it, and the
regex fails — the parser returns no keywords at all. -/
theorem keyword_regex_counterexample :
    claimed_keywords "articles about gpt4".data = ["gpt4".data] ∧
      (parse_query 0 "articles about gpt4".data).keywords = [] :=
  ⟨by decide, by decide⟩

end ChromeHistory
